import Mathlib

/-!
Verification development for `src/allris_bot.py` (srl_allris_bot).

The bot polls a municipal OParl API for new council papers, filters them
against a persisted integer watermark, sorts the survivors ascending by an
identifier extracted from a URL-style reference string, and posts each to
Mastodon, persisting the watermark after each successful post.

The embedding below is a shallow model of that file.  External
collaborators (the HTTP client, the Mastodon client, `datetime`, the file
system, logging) are modelled as explicit parameters or oracle values;
pure Python standard-library routines the code's behaviour depends on
(`int()` on strings, `urllib.parse.urlparse` / `parse_qs`, tuple and dict
comparison inside `list.sort`) are modelled directly.
-/

namespace AllrisBot

/-! ## Python `int(str)` (ASCII fragment)

Models CPython `int()` applied to a string: surrounding whitespace is
stripped, an optional single sign is allowed, then a non-empty digit
sequence in which single underscores may appear between digits.
Non-ASCII decimal digits and non-ASCII whitespace (which CPython also
accepts) are not modelled; on every ASCII input the model agrees with
CPython.  `none` models `ValueError`. -/

/-- ASCII whitespace stripped by Python `str.strip()` / `int()`. -/
def pyIsSpace (c : Char) : Bool :=
  c = ' ' || c = '\t' || c = '\n' || c = '\r' || c = Char.ofNat 11 || c = Char.ofNat 12

/-- Python `str.strip()` on a character list (ASCII whitespace). -/
def pyStrip (cs : List Char) : List Char :=
  ((cs.dropWhile pyIsSpace).reverse.dropWhile pyIsSpace).reverse

/-- Valid Python integer-literal digit run: digits with single underscores
strictly between digits (grammar `digit (["_"] digit)*`). -/
def digitsOk : List Char → Bool
  | [] => false
  | [c] => c.isDigit
  | c :: '_' :: rest => c.isDigit && digitsOk rest
  | c :: rest => c.isDigit && digitsOk rest

/-- Decimal value of a run of ASCII digits. -/
def natOfDigits (cs : List Char) : Nat :=
  cs.foldl (fun a c => a * 10 + (c.toNat - 48)) 0

/-- CPython `int()` on a string, `none` for `ValueError`. -/
def pyIntCore (cs0 : List Char) : Option Int :=
  match pyStrip cs0 with
  | '-' :: rest =>
      if digitsOk rest then some (-(natOfDigits (rest.filter (fun c => c != '_')) : Int)) else none
  | '+' :: rest =>
      if digitsOk rest then some ((natOfDigits (rest.filter (fun c => c != '_')) : Int)) else none
  | rest =>
      if digitsOk rest then some ((natOfDigits (rest.filter (fun c => c != '_')) : Int)) else none

/-! ## `urllib.parse`: query extraction and `parse_qs`

Models Python 3.10 `urlsplit(url).query` and `parse_qs(qs)` with default
arguments, to the extent the bot's behaviour depends on them:
  * the unsafe bytes `\t`, `\r`, `\n` are removed from the URL first;
  * an RFC-scheme prefix `alpha (alnum|+|-|.)* ":"` is stripped;
  * when the remainder starts with `//`, the netloc runs to the first of
    `/?#`; mismatched `[`/`]` brackets in it raise `ValueError`
    (modelled as `none`).  Deeper host validation performed by newer
    CPython versions (NFKC netloc check, 3.11 bracketed-host check) only
    turns further inputs into the same caught `ValueError` and is not
    modelled;
  * the fragment is everything after the first `#` of the remainder, and
    the query everything after the first `?` before that;
  * `parse_qs` splits the query on `&`, drops fields without `=` and
    fields with an empty value, replaces `+` by a space, and
    percent-decodes `%XX`.  (CPython decodes non-ASCII byte sequences as
    UTF-8 with replacement; the model keeps each decoded byte as a single
    character.  Both yield non-ASCII characters, which can neither match
    the ASCII name `id` nor extend an `int()`-parsable value, so the
    difference is invisible to the bot.) -/

/-- One field of a `&`-separated split (Python `str.split('&')`). -/
def splitOnChar (sep : Char) : List Char → List (List Char)
  | [] => [[]]
  | c :: rest =>
    match splitOnChar sep rest with
    | [] => [[]]
    | g :: gs => if c = sep then [] :: g :: gs else (c :: g) :: gs

/-- Hexadecimal digit value. -/
def hexVal (c : Char) : Option Nat :=
  if '0' ≤ c ∧ c ≤ '9' then some (c.toNat - 48)
  else if 'a' ≤ c ∧ c ≤ 'f' then some (c.toNat - 87)
  else if 'A' ≤ c ∧ c ≤ 'F' then some (c.toNat - 55)
  else none

/-- Percent-decoding of `%XX` escapes (see module note above). -/
def percentDecode : List Char → List Char
  | [] => []
  | '%' :: c1 :: c2 :: rest =>
    match hexVal c1, hexVal c2 with
    | some h1, some h2 => Char.ofNat (h1 * 16 + h2) :: percentDecode rest
    | _, _ => '%' :: percentDecode (c1 :: c2 :: rest)
  | c :: rest => c :: percentDecode rest

/-- Python `unquote_plus`: `+` to space, then percent-decode. -/
def unquotePlus (cs : List Char) : List Char :=
  percentDecode (cs.map (fun c => if c = '+' then ' ' else c))

/-- Python `parse_qsl(qs)` with default arguments. -/
def qsPairs (qs : List Char) : List (List Char × List Char) :=
  (splitOnChar '&' qs).filterMap (fun field =>
    match field with
    | [] => none
    | _ =>
      if field.contains '=' then
        let name := field.takeWhile (fun c => c != '=')
        let value := (field.dropWhile (fun c => c != '=')).tail
        if value = [] then none
        else some (unquotePlus name, unquotePlus value)
      else none)

/-- First value listed under the key `id` (`parse_qs(...).get("id", [0])[0]`
takes the first occurrence; `parse_qs` groups values in occurrence order). -/
def firstIdValue : List (List Char × List Char) → Option (List Char)
  | [] => none
  | (n, v) :: rest => if n = "id".data then some v else firstIdValue rest

/-- Characters allowed in a URL scheme. -/
def schemeChar (c : Char) : Bool :=
  c.isAlpha || c.isDigit || c = '+' || c = '-' || c = '.'

/-- Strip a leading `scheme:` as `urlsplit` does. -/
def stripScheme (cs : List Char) : List Char :=
  match cs with
  | [] => []
  | c0 :: _ =>
    match cs.findIdx? (fun c => c = ':') with
    | none => cs
    | some i =>
      if 0 < i ∧ c0.isAlpha ∧ (cs.take i).all schemeChar then cs.drop (i + 1) else cs

/-- A character that does not end the netloc. -/
def netlocChar (c : Char) : Bool :=
  !(c = '/' || c = '?' || c = '#')

/-- Query component of the post-netloc remainder: before the first `#`,
after the first `?`. -/
def queryOfRest (rest : List Char) : List Char :=
  let beforeFrag := rest.takeWhile (fun c => c != '#')
  if beforeFrag.contains '?' then (beforeFrag.dropWhile (fun c => c != '?')).tail
  else []

/-- `urlparse(url).query`; `none` models the `ValueError` raised on a
netloc with mismatched square brackets. -/
def urlparseQuery (url : String) : Option (List Char) :=
  let cs := url.data.filter (fun c => !(c = '\t' || c = '\r' || c = '\n'))
  match stripScheme cs with
  | '/' :: '/' :: rest2 =>
    let netloc := rest2.takeWhile netlocChar
    if (netloc.contains '[' && !(netloc.contains ']'))
        || (netloc.contains ']' && !(netloc.contains '[')) then none
    else some (queryOfRest (rest2.dropWhile netlocChar))
  | rest => some (queryOfRest rest)

/-- Source `extract_id(paper_url)`: parse the URL, read the first `id`
query value, convert with `int()`; any exception (unparsable URL, missing
parameter handled via the `[0]` default, `ValueError` from `int`) yields 0. -/
def extract_id (paper_url : String) : Int :=
  match urlparseQuery paper_url with
  | none => 0
  | some q =>
    match firstIdValue (qsPairs q) with
    | none => 0
    | some v =>
      match pyIntCore v with
      | none => 0
      | some n => n

/-! ## Data model

A `Paper` is the bot's view of one JSON paper object: the fields the
source reads via `paper.get(...)`.  `none` models an absent key.  Two
papers are equal exactly when the dictionaries agree on these fields
(extra JSON keys the code never reads are not modelled; dict equality is
restricted accordingly). -/

/-- The `mainFile` sub-object: only `accessUrl` is read. -/
structure MainFile where
  accessUrl : Option String
deriving DecidableEq

/-- One paper dictionary, restricted to the keys the source reads.
`idUrl` is the `id` key: an opaque URL-style reference string. -/
structure Paper where
  idUrl : Option String
  name : Option String
  paperType : Option String
  created : Option String
  web : Option String
  mainFile : Option MainFile
deriving DecidableEq

/-! ## Watermark store (`load_last_id` / `save_last_id`)

The state file is modelled as `Option String`: `none` when
`last_posted_id.txt` does not exist, `some s` when it holds text `s`. -/

/-- Source `load_last_id()`: 0 when the file is absent, else
`int(f.read().strip())`, with any exception caught and turned into 0. -/
def load_last_id (file : Option String) : Int :=
  match file with
  | none => 0
  | some s => (pyIntCore (pyStrip s.data)).getD 0

/-- Source `save_last_id(last_id)`: overwrite the file with `str(last_id)`
(write failures are logged and swallowed; the model's file always takes
the written value). -/
def save_last_id (last_id : Int) : Option String :=
  some (toString last_id)

/-! ## Data fetcher (`get_recent_papers`)

The HTTP exchange is an oracle.  `reqError` covers every
`requests.RequestException`: connection errors, `raise_for_status`, and
the JSON decode error raised by `response.json()` (a `RequestException`
subclass in the `requests` versions this code targets) — the function
catches exactly these and returns `[]`.  `nonDictBody` is a body that is
valid JSON but not an object: `data.get` then raises `AttributeError`,
which the function does not catch (modelled as `Except.error`).
`dictBody d` is a JSON object whose optional `data` member is the list of
papers. -/

inductive FetchOutcome where
  | reqError
  | nonDictBody
  | dictBody (data : Option (List Paper))

/-- Fixed base URL constant `DATA_URL` from the source. -/
def DATA_URL : String :=
  "https://ratsinformation.leipzig.de/allris_leipzig_public/oparl/papers"

/-- The URL `get_recent_papers` requests.  `yesterdayIso` stands for
`(datetime.now() - timedelta(days=1)).isoformat()`, the ISO-8601
rendering of now minus 24 hours. -/
def request_url (yesterdayIso : String) : String :=
  DATA_URL ++ "/papers?filter[created]=" ++ yesterdayIso

/-- Source `get_recent_papers()` given the exchange's outcome:
`RequestException` → `[]`; JSON object → its `data` list (default `[]`);
non-object JSON → uncaught `AttributeError`. -/
def get_recent_papers : FetchOutcome → Except String (List Paper)
  | .reqError => .ok []
  | .nonDictBody => .error "AttributeError"
  | .dictBody d => .ok (d.getD [])

/-! ## Status formatter (`create_status`)

`fromiso s` models `datetime.fromisoformat(s).strftime("%d.%m.%Y %H:%M")`
(an external stdlib collaborator): `none` models the `ValueError` the
source catches, `some d` the formatted date.  Python's `if value:` test
on a string is false for the empty string, so every optional line
requires a *non-empty* field.  The function is total: missing fields
never raise. -/

/-- Lines contributed by the `paperType` block. -/
def typeLines (paper : Paper) : List String :=
  match paper.paperType with
  | none => []
  | some s => if s = "" then [] else ["📄 Typ: " ++ s]

/-- Lines contributed by the `created` block (parse failure → no line). -/
def dateLines (fromiso : String → Option String) (paper : Paper) : List String :=
  match paper.created with
  | none => []
  | some s =>
    if s = "" then []
    else
      match fromiso s with
      | none => []
      | some d => ["📅 Bereitgestellt am: " ++ d]

/-- Lines contributed by the `web` block. -/
def webLines (paper : Paper) : List String :=
  match paper.web with
  | none => []
  | some s => if s = "" then [] else ["🔗 ALLRIS: " ++ s]

/-- `paper.get("mainFile", {}).get("accessUrl")`. -/
def accessUrlOf (paper : Paper) : Option String :=
  match paper.mainFile with
  | none => none
  | some mf => mf.accessUrl

/-- Lines contributed by the `mainFile.accessUrl` block. -/
def pdfLines (paper : Paper) : List String :=
  match accessUrlOf paper with
  | none => []
  | some s => if s = "" then [] else ["🌐 PDF: " ++ s]

/-- Default title constant `DEFAULT_TITLE`. -/
def DEFAULT_TITLE : String := "Kein Titel"

/-- The mandatory first line. -/
def titleLine (paper : Paper) : String :=
  "🗂️ Titel: \"" ++ paper.name.getD DEFAULT_TITLE ++ "\""

/-- The `status_lines` list built by `create_status`, in source order. -/
def create_status_lines (fromiso : String → Option String) (paper : Paper) : List String :=
  titleLine paper
    :: (typeLines paper ++ dateLines fromiso paper ++ webLines paper ++ pdfLines paper
        ++ ["#leipzig #leipzigerstadtrat"])

/-- Source `create_status(paper)`: `"\n".join(status_lines)`. -/
def create_status (fromiso : String → Option String) (paper : Paper) : String :=
  String.intercalate "\n" (create_status_lines fromiso paper)

/-! ## The publisher loop (`check_and_post_new_papers`)

`new_papers.sort()` sorts `(paper_id, paper)` tuples with Python tuple
comparison: equal first components fall through to comparing the paper
dictionaries with `<`, which raises `TypeError`.  The sort is modelled as
a stable insertion sort over that fallible comparison (CPython's Timsort
is also a stable comparison sort over the same `__lt__`, raising on the
same comparisons); `Except.error` models the uncaught `TypeError`. -/

/-- Python `(a_id, a_paper) < (b_id, b_paper)`: integer comparison when
the ids differ; equal tuples compare `False`; otherwise `dict < dict`
raises `TypeError`. -/
def tupleLt (a b : Int × Paper) : Except String Bool :=
  if a.1 = b.1 then
    if a.2 = b.2 then .ok false
    else .error "TypeError: unorderable dicts"
  else .ok (decide (a.1 < b.1))

/-- Stable fallible insertion: place `x` before the first element it
compares strictly below. -/
def insertM (x : Int × Paper) : List (Int × Paper) → Except String (List (Int × Paper))
  | [] => .ok [x]
  | y :: ys =>
    match tupleLt x y with
    | .error e => .error e
    | .ok true => .ok (x :: y :: ys)
    | .ok false =>
      match insertM x ys with
      | .error e => .error e
      | .ok r => .ok (y :: r)

/-- Insert each element in turn into the sorted accumulator. -/
def sortMAux (acc : List (Int × Paper)) : List (Int × Paper) → Except String (List (Int × Paper))
  | [] => .ok acc
  | x :: xs =>
    match insertM x acc with
    | .error e => .error e
    | .ok acc2 => sortMAux acc2 xs

/-- Model of `new_papers.sort()`. -/
def sortM (l : List (Int × Paper)) : Except String (List (Int × Paper)) :=
  sortMAux [] l

/-- The filtering pass: keep `(extract_id(paper.get("id", "")), paper)`
for papers whose id exceeds the watermark, in feed order. -/
def eligible (last_posted_id : Int) (papers : List Paper) : List (Int × Paper) :=
  papers.filterMap (fun paper =>
    let paper_id := extract_id (paper.idUrl.getD "")
    if paper_id ≤ last_posted_id then none else some (paper_id, paper))

/-- The posting loop over the sorted list.  `post` is the Mastodon oracle
(`true` = `mastodon.toot` returned, `false` = it raised; the exception is
caught and the loop continues).  Returns
(attempted ids in order, successfully posted ids in order, final file). -/
def postLoop (fromiso : String → Option String) (post : Int × Paper → Bool) :
    List (Int × Paper) → Option String → List Int × List Int × Option String
  | [], file => ([], [], file)
  | (paper_id, paper) :: rest, file =>
    let _status := create_status fromiso paper
    let ok := post (paper_id, paper)
    let file2 := if ok then save_last_id paper_id else file
    let r := postLoop fromiso post rest file2
    (paper_id :: r.1, (if ok then [paper_id] else []) ++ r.2.1, r.2.2)

/-- Source `check_and_post_new_papers()`.  The outer `try` around
`get_recent_papers()` catches the `AttributeError` of a non-dict body and
returns; the `TypeError` from `new_papers.sort()` is uncaught and
propagates (`Except.error`). -/
def check_and_post_new_papers (fromiso : String → Option String)
    (post : Int × Paper → Bool) (fetch : FetchOutcome) (file : Option String) :
    Except String (List Int × List Int × Option String) :=
  match get_recent_papers fetch with
  | .error _ => .ok ([], [], file)
  | .ok papers =>
    let last_posted_id := load_last_id file
    let new_papers := eligible last_posted_id papers
    match sortM new_papers with
    | .error e => .error e
    | .ok sorted_papers => .ok (postLoop fromiso post sorted_papers file)

/-! ## Lemmas about the fallible sort -/

/-- Key order: compare pairs by their identifier. -/
def le1 (a b : Int × Paper) : Prop := a.1 ≤ b.1

/-- Coherence: elements with equal identifier are the same paper.  Two
coherent elements always compare without `TypeError`. -/
def coh (a b : Int × Paper) : Prop := a.1 = b.1 → a.2 = b.2

theorem coh_symm : Symmetric coh := by
  intro a b h hba
  exact (h hba.symm).symm

theorem tupleLt_ok_true {x y : Int × Paper} (h : tupleLt x y = .ok true) : x.1 < y.1 := by
  unfold tupleLt at h
  by_cases h1 : x.1 = y.1
  · simp [h1] at h
    by_cases h2 : x.2 = y.2 <;> simp [h2] at h
  · simp [h1] at h
    exact h

theorem tupleLt_ok_false {x y : Int × Paper} (h : tupleLt x y = .ok false) : y.1 ≤ x.1 := by
  unfold tupleLt at h
  by_cases h1 : x.1 = y.1
  · exact le_of_eq h1.symm
  · simp [h1] at h
    omega

theorem tupleLt_ok_of_coh {x y : Int × Paper} (h : coh x y) : ∃ b, tupleLt x y = .ok b := by
  unfold tupleLt
  by_cases h1 : x.1 = y.1
  · exact ⟨false, by simp [h1, h h1]⟩
  · exact ⟨decide (x.1 < y.1), by simp [h1]⟩

theorem insertM_perm (x : Int × Paper) :
    ∀ l m, insertM x l = .ok m → m.Perm (x :: l) := by
  intro l
  induction l with
  | nil =>
    intro m h
    simp only [insertM, Except.ok.injEq] at h
    subst h
    exact List.Perm.refl _
  | cons y ys ih =>
    intro m h
    simp only [insertM] at h
    cases htl : tupleLt x y with
    | error e => rw [htl] at h; cases h
    | ok b =>
      rw [htl] at h
      cases b with
      | true =>
        simp only [Except.ok.injEq] at h
        subst h
        exact List.Perm.refl _
      | false =>
        cases hr : insertM x ys with
        | error e => rw [hr] at h; cases h
        | ok r =>
          rw [hr] at h
          simp only [Except.ok.injEq] at h
          subst h
          exact ((ih r hr).cons y).trans (List.Perm.swap x y ys)

theorem insertM_sorted (x : Int × Paper) :
    ∀ l m, insertM x l = .ok m → l.Sorted le1 → m.Sorted le1 := by
  intro l
  induction l with
  | nil =>
    intro m h _
    simp only [insertM, Except.ok.injEq] at h
    subst h
    exact List.sorted_singleton x
  | cons y ys ih =>
    intro m h hs
    rw [List.sorted_cons] at hs
    simp only [insertM] at h
    cases htl : tupleLt x y with
    | error e => rw [htl] at h; cases h
    | ok b =>
      rw [htl] at h
      cases b with
      | true =>
        simp only [Except.ok.injEq] at h
        subst h
        have hxy : x.1 < y.1 := tupleLt_ok_true htl
        rw [List.sorted_cons]
        refine ⟨?_, List.sorted_cons.mpr hs⟩
        intro z hz
        rcases List.mem_cons.mp hz with hz1 | hz1
        · rw [hz1]; exact le_of_lt hxy
        · exact le_trans (le_of_lt hxy) (hs.1 z hz1)
      | false =>
        cases hr : insertM x ys with
        | error e => rw [hr] at h; cases h
        | ok r =>
          rw [hr] at h
          simp only [Except.ok.injEq] at h
          subst h
          have hyx : y.1 ≤ x.1 := tupleLt_ok_false htl
          rw [List.sorted_cons]
          refine ⟨?_, ih r hr hs.2⟩
          intro z hz
          have hz2 : z ∈ x :: ys := (insertM_perm x ys r hr).mem_iff.mp hz
          rcases List.mem_cons.mp hz2 with hz1 | hz1
          · rw [hz1]; exact hyx
          · exact hs.1 z hz1

theorem insertM_coh (x : Int × Paper) :
    ∀ l m, insertM x l = .ok m → l.Sorted le1 → ∀ y ∈ l, coh x y := by
  intro l
  induction l with
  | nil => intro m _ _ y hy; cases hy
  | cons z zs ih =>
    intro m h hs y hy
    rw [List.sorted_cons] at hs
    simp only [insertM] at h
    cases htl : tupleLt x z with
    | error e => rw [htl] at h; cases h
    | ok b =>
      rw [htl] at h
      cases b with
      | true =>
        have hxz : x.1 < z.1 := tupleLt_ok_true htl
        rcases List.mem_cons.mp hy with hy1 | hy1
        · subst hy1
          intro he
          exact absurd he (by omega)
        · intro he
          have hzy : z.1 ≤ y.1 := hs.1 y hy1
          exact absurd he (by omega)
      | false =>
        cases hr : insertM x zs with
        | error e => rw [hr] at h; cases h
        | ok r =>
          rcases List.mem_cons.mp hy with hy1 | hy1
          · rw [hy1]
            intro he
            unfold tupleLt at htl
            rw [if_pos he] at htl
            by_cases h2 : x.2 = z.2
            · exact h2
            · rw [if_neg h2] at htl
              simp at htl
          · exact ih r hr hs.2 y hy1

theorem insertM_total (x : Int × Paper) :
    ∀ l, (∀ y ∈ l, coh x y) → ∃ m, insertM x l = .ok m := by
  intro l
  induction l with
  | nil => exact fun _ => ⟨[x], rfl⟩
  | cons y ys ih =>
    intro hc
    obtain ⟨b, hb⟩ := tupleLt_ok_of_coh (hc y (List.mem_cons_self y ys))
    cases b with
    | true => exact ⟨x :: y :: ys, by simp only [insertM, hb]⟩
    | false =>
      obtain ⟨r, hr⟩ := ih (fun z hz => hc z (List.mem_cons_of_mem y hz))
      exact ⟨y :: r, by simp only [insertM, hb, hr]⟩

theorem sortMAux_spec :
    ∀ l acc m, sortMAux acc l = .ok m → acc.Sorted le1 → acc.Pairwise coh →
      m.Perm (acc ++ l) ∧ m.Sorted le1 ∧ m.Pairwise coh := by
  intro l
  induction l with
  | nil =>
    intro acc m h hs hc
    simp only [sortMAux, Except.ok.injEq] at h
    subst h
    exact ⟨by simp, hs, hc⟩
  | cons x xs ih =>
    intro acc m h hs hc
    simp only [sortMAux] at h
    cases hins : insertM x acc with
    | error e => rw [hins] at h; cases h
    | ok acc2 =>
      rw [hins] at h
      have hperm2 : acc2.Perm (x :: acc) := insertM_perm x acc acc2 hins
      have hs2 : acc2.Sorted le1 := insertM_sorted x acc acc2 hins hs
      have hcohx : ∀ y ∈ acc, coh x y := insertM_coh x acc acc2 hins hs
      have hc2 : acc2.Pairwise coh := by
        have hxacc : (x :: acc).Pairwise coh := List.pairwise_cons.mpr ⟨hcohx, hc⟩
        exact (hperm2.pairwise_iff (fun h1 => coh_symm h1)).mpr hxacc
      obtain ⟨hp, hsor, hcoh⟩ := ih acc2 m h hs2 hc2
      refine ⟨?_, hsor, hcoh⟩
      exact hp.trans ((hperm2.append_right xs).trans List.perm_middle.symm)

theorem sortMAux_total :
    ∀ l acc, acc.Sorted le1 → acc.Pairwise coh →
      (∀ x ∈ l, ∀ y ∈ acc, coh x y) → l.Pairwise coh →
      ∃ m, sortMAux acc l = .ok m := by
  intro l
  induction l with
  | nil => exact fun acc _ _ _ _ => ⟨acc, rfl⟩
  | cons x xs ih =>
    intro acc hs hc hcross hl
    rw [List.pairwise_cons] at hl
    obtain ⟨acc2, hins⟩ := insertM_total x acc (hcross x (List.mem_cons_self x xs))
    have hperm2 : acc2.Perm (x :: acc) := insertM_perm x acc acc2 hins
    have hs2 : acc2.Sorted le1 := insertM_sorted x acc acc2 hins hs
    have hcohx : ∀ y ∈ acc, coh x y := insertM_coh x acc acc2 hins hs
    have hc2 : acc2.Pairwise coh := by
      have hxacc : (x :: acc).Pairwise coh := List.pairwise_cons.mpr ⟨hcohx, hc⟩
      exact (hperm2.pairwise_iff (fun h1 => coh_symm h1)).mpr hxacc
    have hcross2 : ∀ z ∈ xs, ∀ y ∈ acc2, coh z y := by
      intro z hz y hy
      have hy2 : y ∈ x :: acc := hperm2.mem_iff.mp hy
      rcases List.mem_cons.mp hy2 with hy1 | hy1
      · subst hy1
        exact coh_symm (hl.1 z hz)
      · exact hcross z (List.mem_cons_of_mem x hz) y hy1
    obtain ⟨m, hm⟩ := ih acc2 hs2 hc2 hcross2 hl.2
    exact ⟨m, by simp only [sortMAux, hins]; exact hm⟩

theorem sortM_spec {l m : List (Int × Paper)} (h : sortM l = .ok m) :
    m.Perm l ∧ m.Sorted le1 ∧ m.Pairwise coh := by
  obtain ⟨hp, hs, hc⟩ := sortMAux_spec l [] m h (List.sorted_nil) (List.Pairwise.nil)
  exact ⟨by simpa using hp, hs, hc⟩

theorem sortM_total {l : List (Int × Paper)} (h : l.Pairwise coh) :
    ∃ m, sortM l = .ok m := by
  exact sortMAux_total l [] List.sorted_nil List.Pairwise.nil (by intro x _ y hy; cases hy) h

/-- Distinct identifiers give coherence (the implication is vacuous). -/
theorem pairwise_coh_of_nodup {l : List (Int × Paper)} (h : (l.map Prod.fst).Nodup) :
    l.Pairwise coh := by
  have h2 : (l.map Prod.fst).Pairwise (fun a b => a ≠ b) := h
  rw [List.pairwise_map] at h2
  exact h2.imp (fun hne he => absurd he hne)

/-- Two sorted, coherent, mutually permuted lists are equal. -/
theorem sorted_coh_unique :
    ∀ m1 m2 : List (Int × Paper), m1.Perm m2 → m1.Sorted le1 → m2.Sorted le1 →
      m1.Pairwise coh → m1 = m2 := by
  intro m1
  induction m1 with
  | nil =>
    intro m2 hp _ _ _
    exact (hp.symm.eq_nil).symm
  | cons a t1 ih =>
    intro m2 hp hs1 hs2 hc1
    cases m2 with
    | nil => exact absurd hp.eq_nil (List.cons_ne_nil a t1)
    | cons b t2 =>
      rw [List.sorted_cons] at hs1 hs2
      rw [List.pairwise_cons] at hc1
      have hab : a = b := by
        have hamem : a ∈ b :: t2 := hp.mem_iff.mp (List.mem_cons_self a t1)
        have hbmem : b ∈ a :: t1 := hp.symm.mem_iff.mp (List.mem_cons_self b t2)
        have h1 : b.1 ≤ a.1 := by
          rcases List.mem_cons.mp hamem with h | h
          · exact le_of_eq (by rw [h])
          · exact hs2.1 a h
        have h2 : a.1 ≤ b.1 := by
          rcases List.mem_cons.mp hbmem with h | h
          · exact le_of_eq (by rw [h])
          · exact hs1.1 b h
        rcases List.mem_cons.mp hbmem with h | h
        · exact h.symm
        · have hfst : a.1 = b.1 := le_antisymm h2 h1
          have hsnd : a.2 = b.2 := hc1.1 b h hfst
          exact Prod.ext hfst hsnd
      subst hab
      have ht : t1.Perm t2 := hp.cons_inv
      rw [ih t2 ht hs1.2 hs2.2 hc1.2]

/-! ## Lemmas about the posting loop and the whole run -/

/-- File content after saving each id of `posted` in order: the last
successful save wins; with no successful post the file keeps its initial
content. -/
def lastSaved (posted : List Int) (file : Option String) : Option String :=
  match posted with
  | [] => file
  | i :: rest => lastSaved rest (save_last_id i)

theorem postLoop_attempts (fromiso : String → Option String) (post : Int × Paper → Bool) :
    ∀ (m : List (Int × Paper)) (file : Option String),
      (postLoop fromiso post m file).1 = m.map Prod.fst := by
  intro m
  induction m with
  | nil => intro file; rfl
  | cons x rest ih =>
    intro file
    obtain ⟨i, p⟩ := x
    simp only [postLoop, List.map_cons, ih]

theorem postLoop_posted (fromiso : String → Option String) (post : Int × Paper → Bool) :
    ∀ (m : List (Int × Paper)) (file : Option String),
      (postLoop fromiso post m file).2.1 = (m.filter (fun x => post x)).map Prod.fst := by
  intro m
  induction m with
  | nil => intro file; rfl
  | cons x rest ih =>
    intro file
    obtain ⟨i, p⟩ := x
    by_cases hp : post (i, p)
    · simp only [postLoop, hp, if_true, List.filter_cons, List.map_cons, ih]
      simp [hp]
    · simp only [postLoop, hp, if_false, List.filter_cons, ih]
      simp [hp]

theorem postLoop_file (fromiso : String → Option String) (post : Int × Paper → Bool) :
    ∀ (m : List (Int × Paper)) (file : Option String),
      (postLoop fromiso post m file).2.2 =
        lastSaved ((m.filter (fun x => post x)).map Prod.fst) file := by
  intro m
  induction m with
  | nil => intro file; rfl
  | cons x rest ih =>
    intro file
    obtain ⟨i, p⟩ := x
    by_cases hp : post (i, p)
    · simp only [postLoop, hp, if_true, List.filter_cons, ih]
      simp [hp, lastSaved]
    · simp only [postLoop, hp, if_false, List.filter_cons, ih]
      simp [hp]

theorem lastSaved_sorted_max :
    ∀ (l : List Int) (file : Option String), l.Sorted (· ≤ ·) → l ≠ [] →
      ∃ imax, lastSaved l file = some (toString imax) ∧ imax ∈ l ∧ ∀ i ∈ l, i ≤ imax := by
  intro l
  induction l with
  | nil => intro file _ hne; exact absurd rfl hne
  | cons i rest ih =>
    intro file hs hne
    rw [List.sorted_cons] at hs
    cases rest with
    | nil =>
      refine ⟨i, rfl, List.mem_cons_self i [], ?_⟩
      intro j hj
      rcases List.mem_cons.mp hj with h | h
      · rw [h]
      · cases h
    | cons j rest2 =>
      obtain ⟨imax, hfile, hmem, hmax⟩ :=
        ih (save_last_id i) hs.2 (List.cons_ne_nil j rest2)
      refine ⟨imax, hfile, List.mem_cons_of_mem i hmem, ?_⟩
      intro k hk
      rcases List.mem_cons.mp hk with h | h
      · rw [h]
        exact le_trans (hs.1 imax hmem) (le_refl imax)
      · exact hmax k h

/-- Decomposition of a completed run into its phases. -/
theorem run_ok_elim (fromiso : String → Option String) (post : Int × Paper → Bool)
    (papers : List Paper) (file0 : Option String)
    (att posted : List Int) (file : Option String)
    (h : check_and_post_new_papers fromiso post (.dictBody (some papers)) file0
          = .ok (att, posted, file)) :
    ∃ m, sortM (eligible (load_last_id file0) papers) = .ok m ∧
      att = m.map Prod.fst ∧
      posted = (m.filter (fun x => post x)).map Prod.fst ∧
      file = lastSaved posted file0 := by
  simp only [check_and_post_new_papers, get_recent_papers, Option.getD] at h
  cases hm : sortM (eligible (load_last_id file0) papers) with
  | error e => rw [hm] at h; cases h
  | ok m =>
    rw [hm] at h
    simp only [Except.ok.injEq] at h
    have h1 : (postLoop fromiso post m file0).1 = att := by rw [h]
    have h2 : (postLoop fromiso post m file0).2.1 = posted := by rw [h]
    have h3 : (postLoop fromiso post m file0).2.2 = file := by rw [h]
    refine ⟨m, rfl, ?_, ?_, ?_⟩
    · rw [← h1, postLoop_attempts]
    · rw [← h2, postLoop_posted]
    · rw [← h3, postLoop_file, ← h2, postLoop_posted]

/-- A completed run's attempts are sorted by `≤` and are a permutation of
the eligible identifiers. -/
theorem run_ok_attempts (fromiso : String → Option String) (post : Int × Paper → Bool)
    (papers : List Paper) (file0 : Option String)
    (att posted : List Int) (file : Option String)
    (h : check_and_post_new_papers fromiso post (.dictBody (some papers)) file0
          = .ok (att, posted, file)) :
    att.Perm ((eligible (load_last_id file0) papers).map Prod.fst)
      ∧ att.Sorted (· ≤ ·) := by
  obtain ⟨m, hm, hatt, _, _⟩ := run_ok_elim fromiso post papers file0 att posted file h
  obtain ⟨hperm, hsort, _⟩ := sortM_spec hm
  constructor
  · rw [hatt]
    exact hperm.map Prod.fst
  · rw [hatt]
    unfold List.Sorted
    rw [List.pairwise_map]
    exact hsort

/-- Members of the eligible list have identifiers strictly above the
watermark. -/
theorem eligible_fst_gt (w : Int) (papers : List Paper) :
    ∀ x ∈ eligible w papers, w < x.1 := by
  intro x hx
  unfold eligible at hx
  obtain ⟨p, hp, hfp⟩ := List.mem_filterMap.mp hx
  by_cases h : extract_id (p.idUrl.getD "") ≤ w
  · simp only [h, if_true] at hfp
    cases hfp
  · simp only [h, if_false, Option.some.injEq] at hfp
    rw [← hfp]
    omega

/-! ## Concrete fixtures for witnesses and counterexamples -/

/-- A date-format oracle that always fails to parse (`ValueError`). -/
def noDate : String → Option String := fun _ => none

/-- Paper with reference id 7. -/
def paperA : Paper := ⟨some "vo020?id=7", some "Antrag A", none, none, none, none⟩

/-- A different paper that also carries reference id 7. -/
def paperB : Paper := ⟨some "vo020?id=7", some "Antrag B", none, none, none, none⟩

/-- Paper with reference id 3. -/
def paper3 : Paper := ⟨some "vo020?id=3", some "Antrag C", none, none, none, none⟩

/-- Paper with reference id 9. -/
def paper9 : Paper := ⟨some "vo020?id=9", some "Antrag D", none, none, none, none⟩

/-- Paper whose reference has no `id` parameter: `extract_id` yields 0. -/
def paperZ : Paper := ⟨some "vo020", some "Antrag E", none, none, none, none⟩

/-- Posting oracle that succeeds exactly on identifier 7. -/
def postOnly7 : Int × Paper → Bool := fun x => x.1 == 7

/-! ## Claim theorems -/

/-- C4: `get_recent_papers` issues its GET against the fixed papers path
(the base constant already ends in `/papers`, so the requested path
repeats that segment) with `filter[created]` set to the ISO-8601
timestamp of now minus 24 hours (`yesterdayIso`), and any
`requests.RequestException` — connection failure, HTTP error status, or
a JSON decode failure of the body — yields the empty list, as does a
JSON object without a `data` member. -/
theorem get_recent_papers_spec :
    (∀ yesterdayIso, request_url yesterdayIso =
      "https://ratsinformation.leipzig.de/allris_leipzig_public/oparl/papers/papers?filter[created]="
        ++ yesterdayIso) ∧
    get_recent_papers .reqError = .ok [] ∧
    get_recent_papers (.dictBody none) = .ok [] :=
  ⟨fun _ => rfl, rfl, rfl⟩

/-- C5 (amended): each optional line of the status appears exactly when
the corresponding field is present *and non-empty* (Python string
truthiness) — and, for the creation date, when the timestamp also
parses; such lines all appear in the message's line list, and the
formatter is a total function, so missing fields never raise. -/
theorem create_status_optional_lines (fromiso : String → Option String) (paper : Paper) :
    (typeLines paper ≠ [] ↔ ∃ s, paper.paperType = some s ∧ s ≠ "") ∧
    (dateLines fromiso paper ≠ [] ↔ ∃ s d, paper.created = some s ∧ s ≠ "" ∧ fromiso s = some d) ∧
    (webLines paper ≠ [] ↔ ∃ s, paper.web = some s ∧ s ≠ "") ∧
    (pdfLines paper ≠ [] ↔ ∃ s, accessUrlOf paper = some s ∧ s ≠ "") ∧
    (∀ l, l ∈ typeLines paper ∨ l ∈ dateLines fromiso paper
        ∨ l ∈ webLines paper ∨ l ∈ pdfLines paper →
      l ∈ create_status_lines fromiso paper) := by
  refine ⟨?_, ?_, ?_, ?_, ?_⟩
  · cases hpt : paper.paperType with
    | none => simp [typeLines, hpt]
    | some s =>
      by_cases hs : s = "" <;> simp [typeLines, hpt, hs]
  · cases hcr : paper.created with
    | none => simp [dateLines, hcr]
    | some s =>
      by_cases hs : s = ""
      · simp [dateLines, hcr, hs]
      · cases hd : fromiso s with
        | none => simp [dateLines, hcr, hs, hd]
        | some d => simp [dateLines, hcr, hs, hd]
  · cases hw : paper.web with
    | none => simp [webLines, hw]
    | some s =>
      by_cases hs : s = "" <;> simp [webLines, hw, hs]
  · cases ha : accessUrlOf paper with
    | none => simp [pdfLines, ha]
    | some s =>
      by_cases hs : s = "" <;> simp [pdfLines, ha, hs]
  · intro l hl
    simp only [create_status_lines, List.mem_cons, List.mem_append]
    tauto

/-- Fixture: `paperType` present and non-empty. -/
def typedPaper : Paper := ⟨none, some "T", some "Antrag", none, none, none⟩

theorem create_status_optional_lines_witness :
    typeLines typedPaper ≠ [] ∧ "📄 Typ: Antrag" ∈ create_status_lines noDate typedPaper := by
  have h := create_status_optional_lines noDate typedPaper
  refine ⟨h.1.mpr ⟨"Antrag", rfl, by decide⟩, ?_⟩
  exact h.2.2.2.2 "📄 Typ: Antrag" (Or.inl (by decide))

/-- Fixture: `paperType` present but empty. -/
def emptyTypePaper : Paper := ⟨none, none, some "", none, none, none⟩

/-- Fixture: `paperType` absent. -/
def noTypePaper : Paper := ⟨none, none, none, none, none, none⟩

/-- C5 counterexample: a present-but-empty `paperType` produces no type
line; the message equals the one for a paper without the field, so
"included if and only if the field is present" fails. -/
theorem create_status_present_empty_counterexample :
    emptyTypePaper.paperType.isSome = true ∧
    noTypePaper.paperType = none ∧
    create_status noDate emptyTypePaper = create_status noDate noTypePaper ∧
    create_status noDate emptyTypePaper
      = "🗂️ Titel: \"Kein Titel\"\n#leipzig #leipzigerstadtrat" :=
  ⟨rfl, rfl, rfl, rfl⟩

/-- C6: `extract_id` returns the integer value of the first `id` query
parameter of the reference string; it returns 0 when the URL itself is
unparsable, when the parameter is absent, or when the value is not an
integer literal; it is a total function, so it never raises. -/
theorem extract_id_contract (s : String) :
    (urlparseQuery s = none → extract_id s = 0) ∧
    (∀ q, urlparseQuery s = some q → firstIdValue (qsPairs q) = none → extract_id s = 0) ∧
    (∀ q v, urlparseQuery s = some q → firstIdValue (qsPairs q) = some v →
      pyIntCore v = none → extract_id s = 0) ∧
    (∀ q v n, urlparseQuery s = some q → firstIdValue (qsPairs q) = some v →
      pyIntCore v = some n → extract_id s = n) := by
  refine ⟨?_, ?_, ?_, ?_⟩
  · intro h; simp [extract_id, h]
  · intro q hq hf; simp [extract_id, hq, hf]
  · intro q v hq hf hi; simp [extract_id, hq, hf, hi]
  · intro q v n hq hf hi; simp [extract_id, hq, hf, hi]

theorem extract_id_contract_witness :
    extract_id "vo020?id=1234" = 1234 ∧ extract_id "vo020" = 0 :=
  ⟨(extract_id_contract "vo020?id=1234").2.2.2 ("id=1234".data) ("1234".data) 1234 rfl rfl rfl,
   (extract_id_contract "vo020").2.1 [] rfl rfl⟩

/-- C7: `load_last_id` returns 0 when no state file exists or when the
stored text does not parse as an integer, and the stored integer
otherwise; it is a total function, so it never raises. -/
theorem load_last_id_contract :
    load_last_id none = 0 ∧
    (∀ s, pyIntCore (pyStrip s.data) = none → load_last_id (some s) = 0) ∧
    (∀ s n, pyIntCore (pyStrip s.data) = some n → load_last_id (some s) = n) := by
  refine ⟨rfl, ?_, ?_⟩
  · intro s h; simp [load_last_id, h]
  · intro s n h; simp [load_last_id, h]

theorem load_last_id_contract_witness :
    load_last_id (some " 42 ") = 42 ∧ load_last_id (some "junk") = 0 ∧ load_last_id none = 0 :=
  ⟨load_last_id_contract.2.2 " 42 " 42 rfl,
   load_last_id_contract.2.1 "junk" rfl,
   load_last_id_contract.1⟩

/-- C8: when the fetch fails with a `RequestException`, the run performs
zero publish attempts and leaves the watermark file exactly as it was. -/
theorem fetch_error_run_noop (fromiso : String → Option String)
    (post : Int × Paper → Bool) (file0 : Option String) :
    check_and_post_new_papers fromiso post .reqError file0 = .ok ([], [], file0) :=
  rfl

/-- C1 (amended): for every stored watermark and fetched papers, if the
run completes — which rules out the duplicate-identifier `TypeError`, see
the counterexample — the loop attempts exactly the items whose extracted
identifier exceeds the watermark; when every publish attempt succeeds the
stored watermark file afterwards holds the maximum published identifier,
and when no publish succeeds the file is unchanged. -/
theorem publisher_watermark_spec (fromiso : String → Option String)
    (post : Int × Paper → Bool) (papers : List Paper) (file0 : Option String)
    (att posted : List Int) (file : Option String)
    (hrun : check_and_post_new_papers fromiso post (.dictBody (some papers)) file0
            = .ok (att, posted, file)) :
    att.Perm ((eligible (load_last_id file0) papers).map Prod.fst) ∧
    ((∀ x ∈ eligible (load_last_id file0) papers, post x = true) → att ≠ [] →
      ∃ imax, file = some (toString imax) ∧ imax ∈ att ∧ ∀ i ∈ att, i ≤ imax) ∧
    (posted = [] → file = file0) := by
  obtain ⟨m, hm, hatt, hposted, hfile⟩ :=
    run_ok_elim fromiso post papers file0 att posted file hrun
  obtain ⟨hperm, hsort, hcoh⟩ := sortM_spec hm
  refine ⟨?_, ?_, ?_⟩
  · rw [hatt]
    exact hperm.map Prod.fst
  · intro hall hne
    have hfilter : m.filter (fun x => post x) = m := by
      rw [List.filter_eq_self]
      intro a ha
      exact hall a (hperm.subset ha)
    have hpa : posted = att := by rw [hposted, hfilter, hatt]
    have hsle : att.Sorted (· ≤ ·) := by
      rw [hatt]
      unfold List.Sorted
      rw [List.pairwise_map]
      exact hsort
    obtain ⟨imax, hlast, hmem, hmax⟩ := lastSaved_sorted_max att file0 hsle hne
    refine ⟨imax, ?_, hmem, hmax⟩
    rw [hfile, hpa, hlast]
  · intro hp0
    rw [hfile, hp0]
    rfl

theorem publisher_watermark_spec_witness :
    ([7, 9] : List Int).Perm
      ((eligible (load_last_id (some "5")) [paperA, paper3, paper9]).map Prod.fst) ∧
    (∃ imax, (some "9" : Option String) = some (toString imax)
      ∧ imax ∈ ([7, 9] : List Int) ∧ ∀ i ∈ ([7, 9] : List Int), i ≤ imax) := by
  have h := publisher_watermark_spec noDate (fun _ => true) [paperA, paper3, paper9]
    (some "5") [7, 9] [7, 9] (some "9") rfl
  exact ⟨h.1, h.2.1 (fun x _ => rfl) (by decide)⟩

/-- C1 counterexample: with watermark 5 and two *distinct* papers both
carrying identifier 7, both items are eligible (`i > w`), yet the run
aborts with the sort's `TypeError` before any publish attempt — so the
loop does not attempt exactly the eligible items. -/
theorem publisher_duplicate_id_counterexample :
    check_and_post_new_papers noDate (fun _ => true)
        (.dictBody (some [paperA, paperB])) (some "5")
      = .error "TypeError: unorderable dicts" ∧
    (eligible (load_last_id (some "5")) [paperA, paperB]).map Prod.fst = [7, 7] :=
  ⟨rfl, rfl⟩

/-- C2 (amended): on runs that complete, the publish order is ascending
by identifier, strictly ascending whenever the eligible identifiers are
pairwise distinct, and identical across all permutations of the fetched
list on which the run completes. -/
theorem publish_order_spec (fromiso : String → Option String)
    (post : Int × Paper → Bool) (papers1 papers2 : List Paper) (file0 : Option String)
    (r1 r2 : List Int × List Int × Option String)
    (hperm : papers1.Perm papers2)
    (h1 : check_and_post_new_papers fromiso post (.dictBody (some papers1)) file0 = .ok r1)
    (h2 : check_and_post_new_papers fromiso post (.dictBody (some papers2)) file0 = .ok r2) :
    r1 = r2 ∧ r1.1.Sorted (· ≤ ·) ∧
    (((eligible (load_last_id file0) papers1).map Prod.fst).Nodup → r1.1.Sorted (· < ·)) := by
  obtain ⟨att1, posted1, file1⟩ := r1
  obtain ⟨att2, posted2, file2⟩ := r2
  obtain ⟨m1, hm1, hatt1, hposted1, hfile1⟩ :=
    run_ok_elim fromiso post papers1 file0 att1 posted1 file1 h1
  obtain ⟨m2, hm2, hatt2, hposted2, hfile2⟩ :=
    run_ok_elim fromiso post papers2 file0 att2 posted2 file2 h2
  obtain ⟨hp1, hs1, hc1⟩ := sortM_spec hm1
  obtain ⟨hp2, hs2, hc2⟩ := sortM_spec hm2
  have heperm : (eligible (load_last_id file0) papers1).Perm
      (eligible (load_last_id file0) papers2) := hperm.filterMap _
  have hmm : m1 = m2 :=
    sorted_coh_unique m1 m2 (hp1.trans (heperm.trans hp2.symm)) hs1 hs2 hc1
  have hsle : att1.Sorted (· ≤ ·) := by
    rw [hatt1]
    unfold List.Sorted
    rw [List.pairwise_map]
    exact hs1
  refine ⟨?_, hsle, ?_⟩
  · rw [hatt1, hposted1, hfile1, hatt2, hposted2, hfile2, hposted1, hposted2, hmm]
  · intro hnd
    have hattperm : att1.Perm ((eligible (load_last_id file0) papers1).map Prod.fst) := by
      rw [hatt1]
      exact hp1.map Prod.fst
    have hndatt : att1.Nodup := (hattperm.nodup_iff).mpr hnd
    have hpair := hsle.and hndatt
    exact hpair.imp (fun hab => lt_of_le_of_ne hab.1 hab.2)

theorem publish_order_spec_witness :
    (([7, 9], [7, 9], some "9") : List Int × List Int × Option String)
      = (([7, 9], [7, 9], some "9") : List Int × List Int × Option String) ∧
    ([7, 9] : List Int).Sorted (· < ·) := by
  have h := publish_order_spec noDate (fun _ => true) [paperA, paper9] [paper9, paperA]
    (some "5") ([7, 9], [7, 9], some "9") ([7, 9], [7, 9], some "9")
    (List.Perm.swap paper9 paperA []) rfl rfl
  exact ⟨h.1, h.2.2 (by decide)⟩

/-- C2 counterexample: when the feed repeats the *same* paper dictionary,
both copies survive the filter, the sort succeeds (equal tuples compare
without error), and the identifier sequence in publish order is `[7, 7]`
— ascending but not strictly ascending. -/
theorem publish_order_strict_counterexample :
    check_and_post_new_papers noDate (fun _ => true)
        (.dictBody (some [paperA, paperA])) (some "5")
      = .ok ([7, 7], [7, 7], some "7") ∧
    ¬ ([7, 7] : List Int).Sorted (· < ·) :=
  ⟨rfl, by decide⟩

/-- C3: on every run that reaches the posting loop, a failed publish
leaves the watermark file untouched for that item and the loop moves on:
the attempted identifiers are exactly the eligible ones, the successfully
posted identifiers are a subsequence of them, and the final file content
is the initial content overwritten only by the successful saves, the last
one winning. -/
theorem publish_failure_keeps_watermark (fromiso : String → Option String)
    (post : Int × Paper → Bool) (papers : List Paper) (file0 : Option String)
    (att posted : List Int) (file : Option String)
    (hrun : check_and_post_new_papers fromiso post (.dictBody (some papers)) file0
            = .ok (att, posted, file)) :
    file = lastSaved posted file0 ∧
    att.Perm ((eligible (load_last_id file0) papers).map Prod.fst) ∧
    posted.Sublist att := by
  obtain ⟨m, hm, hatt, hposted, hfile⟩ :=
    run_ok_elim fromiso post papers file0 att posted file hrun
  obtain ⟨hperm, _, _⟩ := sortM_spec hm
  refine ⟨hfile, ?_, ?_⟩
  · rw [hatt]
    exact hperm.map Prod.fst
  · rw [hatt, hposted]
    exact (List.filter_sublist m).map Prod.fst

theorem publish_failure_keeps_watermark_witness :
    (some "7" : Option String) = lastSaved [7] (some "5") ∧
    ([7] : List Int).Sublist ([7, 9] : List Int) := by
  have h := publish_failure_keeps_watermark noDate postOnly7 [paperA, paper3, paper9]
    (some "5") [7, 9] [7] (some "7") rfl
  exact ⟨h.1, h.2.2⟩

/-- C9 (amended): there is an input on which the publisher loop raises an
unhandled `TypeError` before any publish attempt — two distinct eligible
papers sharing an extracted identifier — and the loop is total under the
precondition that the eligible identifiers are pairwise distinct. -/
theorem sort_typeerror_crash :
    (∃ e, check_and_post_new_papers noDate (fun _ => true)
        (.dictBody (some [paperA, paperB])) (some "5") = .error e) ∧
    (∀ (fromiso : String → Option String) (post : Int × Paper → Bool)
        (papers : List Paper) (file0 : Option String),
      ((eligible (load_last_id file0) papers).map Prod.fst).Nodup →
      ∃ r, check_and_post_new_papers fromiso post (.dictBody (some papers)) file0 = .ok r) := by
  constructor
  · exact ⟨"TypeError: unorderable dicts", rfl⟩
  · intro fromiso post papers file0 hnd
    obtain ⟨m, hm⟩ := sortM_total (pairwise_coh_of_nodup hnd)
    refine ⟨postLoop fromiso post m file0, ?_⟩
    simp only [check_and_post_new_papers, get_recent_papers, Option.getD, hm]

theorem sort_typeerror_crash_witness :
    ∃ r, check_and_post_new_papers noDate (fun _ => true)
        (.dictBody (some [paperA, paper9])) (some "5") = .ok r :=
  sort_typeerror_crash.2 noDate (fun _ => true) [paperA, paper9] (some "5") (by decide)

/-- C9 counterexample to the claim's "total *only* under pairwise
distinct identifiers": a feed repeating the same paper has duplicate
eligible identifiers, yet the run completes normally (equal tuples
compare without falling through to the dict comparison). -/
theorem sort_typeerror_only_counterexample :
    ¬ ((eligible (load_last_id (some "5")) [paperA, paperA]).map Prod.fst).Nodup ∧
    check_and_post_new_papers noDate (fun _ => true)
        (.dictBody (some [paperA, paperA])) (some "5")
      = .ok ([7, 7], [7, 7], some "7") :=
  ⟨by decide, rfl⟩

/-- C10: on any run whose stored watermark is non-negative (true of every
state the bot itself can produce: the missing-file default is 0 and only
attempted identifiers, all above the watermark, are ever saved), a paper
whose extracted identifier is 0 is never attempted and never published:
every attempted identifier strictly exceeds the watermark. -/
theorem zero_id_never_published (fromiso : String → Option String)
    (post : Int × Paper → Bool) (papers : List Paper) (file0 : Option String)
    (att posted : List Int) (file : Option String)
    (hw : 0 ≤ load_last_id file0)
    (hrun : check_and_post_new_papers fromiso post (.dictBody (some papers)) file0
            = .ok (att, posted, file)) :
    (∀ i ∈ att, load_last_id file0 < i) ∧
    (0 : Int) ∉ att ∧ (0 : Int) ∉ posted ∧ load_last_id none = 0 := by
  obtain ⟨m, hm, hatt, hposted, hfile⟩ :=
    run_ok_elim fromiso post papers file0 att posted file hrun
  obtain ⟨hperm, _, _⟩ := sortM_spec hm
  have hgt : ∀ i ∈ att, load_last_id file0 < i := by
    intro i hi
    rw [hatt] at hi
    obtain ⟨x, hx, hxi⟩ := List.mem_map.mp hi
    have hxe := eligible_fst_gt (load_last_id file0) papers x (hperm.subset hx)
    rw [← hxi]
    exact hxe
  have hsub : posted.Sublist att := by
    rw [hatt, hposted]
    exact (List.filter_sublist m).map Prod.fst
  refine ⟨hgt, ?_, ?_, rfl⟩
  · intro h0
    have := hgt 0 h0
    omega
  · intro h0
    have := hgt 0 (hsub.subset h0)
    omega

theorem zero_id_never_published_witness :
    (∀ i ∈ ([9] : List Int), load_last_id none < i) ∧
    (0 : Int) ∉ ([9] : List Int) ∧ (0 : Int) ∉ ([9] : List Int) := by
  have h := zero_id_never_published noDate (fun _ => true) [paperZ, paper9] none
    [9] [9] (some "9") (by decide) rfl
  exact ⟨h.1, h.2.1, h.2.2.1⟩

end AllrisBot
